import Mathlib

/-!
Verification of the Hase IQ stove websocket client
(`custom_components/haseiq/IQstove.py`).

This file gives a shallow embedding of the client's value store, its
parsing helpers, the inbound frame handler `_on_text`, and the
coordinator-facing send path, and proves the specification claims about
them.

Modelling conventions:
* A Python `str` is modelled as `PyStr := List Char` (a list of Unicode
  scalar values).  Python strings with lone surrogates cannot be
  UTF-8-encoded and never arise on the paths studied here.
* Python `int`/`float` coercion (`_to_int`, `_to_float`) is modelled by
  executable parsers over the ASCII digit grammar of CPython (sign,
  digit runs with single underscores between digits, and for floats an
  optional fraction, exponent, and the `inf`/`infinity`/`nan` forms).
  CPython additionally accepts non-ASCII Unicode decimal digits; no
  claim below depends on those inputs.
* A Python `float` value is represented abstractly by the stripped
  source token that produced it (constructor `PyVal.float`); no claim
  below compares floats obtained from two different tokens or computes
  with them, so IEEE-754 arithmetic is not modelled.
* Python dictionaries are modelled as insertion-ordered association
  lists.  Because the nested history dictionaries (`appPT`, `appP30T`,
  `_other`) are *objects* that `dict(self.values)` copies only
  shallowly, the store is modelled with an explicit heap: a top-level
  slot is either an immediate value (`Slot.prim`) or a reference
  (`Slot.ref`) to a heap-allocated inner dictionary.
* Raising an exception is modelled by `Except`; `TypeError` is the
  error CPython would raise when item-assigning into a non-dict value.
-/

set_option maxRecDepth 8192

namespace IQ

/-- A Python `str`: a list of Unicode scalar values. -/
abbrev PyStr := List Char

/-- String literal coercion into the model. -/
def lit (s : String) : PyStr := s.data

/-- The characters stripped by Python `str.strip()` (the `str.isspace()`
set: ASCII whitespace, the C1 separators, and the Unicode space
separators). -/
def pySpaceChars : List Char :=
  [' ', '\t', '\n', '\r', '\x0b', '\x0c',
   '\x1c', '\x1d', '\x1e', '\x1f', '\x85', '\xa0',
   '\u1680', '\u2000', '\u2001', '\u2002', '\u2003', '\u2004', '\u2005',
   '\u2006', '\u2007', '\u2008', '\u2009', '\u200a', '\u2028', '\u2029',
   '\u202f', '\u205f', '\u3000']

/-- Python `str.isspace` on a single character. -/
def pyIsSpace (c : Char) : Bool := c ∈ pySpaceChars

/-- Python `str.strip()`: remove leading and trailing whitespace. -/
def pyStrip (cs : PyStr) : PyStr :=
  ((cs.dropWhile pyIsSpace).reverse.dropWhile pyIsSpace).reverse

/-- Python `str.split("=", 1)`: split at the first `'='`.  The caller
(`_on_text`) only uses the result when `'='` occurs in the string. -/
def splitEq1 : PyStr → PyStr × PyStr
  | [] => ([], [])
  | c :: rest =>
    if c = '=' then ([], rest)
    else
      let p := splitEq1 rest
      (c :: p.1, p.2)

/-- Python `str.split(";")`: split on every `';'`, keeping empty parts. -/
def splitSemi : PyStr → List PyStr
  | [] => [[]]
  | c :: rest =>
    if c = ';' then [] :: splitSemi rest
    else
      match splitSemi rest with
      | p :: ps => (c :: p) :: ps
      | [] => [[c]]

/-- Index of the first occurrence of a character (Python `str.index`),
`none` when absent. -/
def firstIdx? : PyStr → Char → Option Nat
  | [], _ => none
  | a :: rest, c => if a = c then some 0 else (firstIdx? rest c).map (· + 1)

/-- Index of the last occurrence of a character (Python `str.rindex`),
`none` when absent. -/
def lastIdx? : PyStr → Char → Option Nat
  | [], _ => none
  | a :: rest, c =>
    match lastIdx? rest c with
    | some i => some (i + 1)
    | none => if a = c then some 0 else none

/-! ### CPython numeric coercion (`_to_int`, `_to_float`) -/

/-- Consume the tail of a digit run: `(digit | '_' digit)*`, accumulating
the value.  A trailing or doubled underscore rejects the whole token. -/
def digitsTail (acc : Nat) : List Char → Option (Nat × List Char)
  | [] => some (acc, [])
  | c :: cs =>
    if c.isDigit then digitsTail (acc * 10 + (c.toNat - 48)) cs
    else if c = '_' then
      match cs with
      | d :: cs2 => if d.isDigit then digitsTail (acc * 10 + (d.toNat - 48)) cs2 else none
      | [] => none
    else some (acc, c :: cs)

/-- Consume a digit run `digit ('_'? digit)*` (at least one digit),
returning its value and the rest of the input. -/
def digitRun : List Char → Option (Nat × List Char)
  | [] => none
  | c :: cs => if c.isDigit then digitsTail (c.toNat - 48) cs else none

/-- An unsigned decimal integer: a digit run consuming the whole input. -/
def pyParseUnsigned (cs : List Char) : Option Nat :=
  match digitRun cs with
  | some (n, []) => some n
  | _ => none

/-- CPython `int(str(v).strip())`, `None` on failure (`_to_int`). -/
def pyToInt (v : PyStr) : Option Int :=
  let s := pyStrip v
  match s with
  | '+' :: rest => (pyParseUnsigned rest).map Int.ofNat
  | '-' :: rest => (pyParseUnsigned rest).map (fun n => -(n : Int))
  | _ => (pyParseUnsigned s).map Int.ofNat

/-- Accept the exponent/end tail of a CPython float literal (input
already lowercased). -/
def floatExpoAccepts : List Char → Bool
  | [] => true
  | 'e' :: r =>
    let r2 : List Char :=
      match r with
      | '+' :: t => t
      | '-' :: t => t
      | t => t
    match digitRun r2 with
    | some (_, []) => true
    | _ => false
  | _ => false

/-- Consume an optional digit run. -/
def optDigitRun (cs : List Char) : List Char :=
  match digitRun cs with
  | some (_, r) => r
  | none => cs

/-- Consume the mantissa of a CPython float literal: digits with an
optional fraction, or a leading-dot fraction. -/
def floatMantissaRest? (s : List Char) : Option (List Char) :=
  match digitRun s with
  | some (_, r) =>
    match r with
    | '.' :: r2 => some (optDigitRun r2)
    | _ => some r
  | none =>
    match s with
    | '.' :: r2 =>
      match digitRun r2 with
      | some (_, r3) => some r3
      | none => none
    | _ => none

/-- Accept a CPython float literal body (sign already removed, input
lowercased): fixed-point mantissa with optional exponent, or one of the
special forms. -/
def floatBodyAccepts (s : List Char) : Bool :=
  if s = lit "inf" ∨ s = lit "infinity" ∨ s = lit "nan" then true
  else
    match floatMantissaRest? s with
    | some rest => floatExpoAccepts rest
    | none => false

/-- Accept a CPython float literal (already stripped). -/
def floatAccepts (s : PyStr) : Bool :=
  let low := s.map Char.toLower
  match low with
  | '+' :: body => floatBodyAccepts body
  | '-' :: body => floatBodyAccepts body
  | body => floatBodyAccepts body

/-- CPython `float(str(v).strip())`, `None` on failure (`_to_float`).
The successful value is represented abstractly by the stripped source
token. -/
def pyToFloat (v : PyStr) : Option PyStr :=
  let s := pyStrip v
  if floatAccepts s then some s else none

/-! ### The value store -/

/-- A number produced by `_parse_semicolon_numbers`: an `int` or a
`float` (the float represented by its source token). -/
inductive PyNum where
  | int (n : Int)
  | float (tok : PyStr)
deriving DecidableEq, Repr

/-- A non-dictionary Python value held in the store: `None`, an `int`,
a `float`, a `str`, or a list of numbers. -/
inductive PyVal where
  | none
  | int (n : Int)
  | float (tok : PyStr)
  | str (s : PyStr)
  | list (xs : List PyNum)
deriving DecidableEq, Repr

/-- A top-level dictionary slot: an immediate value, or a reference to a
heap-allocated inner dictionary (Python object identity). -/
inductive Slot where
  | prim (v : PyVal)
  | ref (a : Nat)
deriving DecidableEq, Repr

/-- A Python dictionary: an insertion-ordered association list with
unique keys. -/
abbrev Dict := List (PyStr × Slot)

/-- Python `d[k] = v`: replace in place if the key is present, else
append. -/
def dictSet (d : Dict) (k : PyStr) (v : Slot) : Dict :=
  match d with
  | [] => [(k, v)]
  | (k', v') :: rest => if k' = k then (k, v) :: rest else (k', v') :: dictSet rest k v

/-- Python `d.get(k)` / `d[k]` read. -/
def dictGet? (d : Dict) (k : PyStr) : Option Slot :=
  match d with
  | [] => Option.none
  | (k', v) :: rest => if k' = k then some v else dictGet? rest k

/-- The heap of inner dictionary objects, addressed by allocation order. -/
abbrev Heap := List (Nat × Dict)

/-- Read a heap-allocated dictionary. -/
def heapGet? (h : Heap) (a : Nat) : Option Dict :=
  match h with
  | [] => Option.none
  | (a', d) :: rest => if a' = a then some d else heapGet? rest a

/-- Item assignment `obj[k] = v` on the dictionary at address `a`. -/
def heapSetItem (h : Heap) (a : Nat) (k : PyStr) (v : Slot) : Heap :=
  match h with
  | [] => []
  | (a', d) :: rest =>
    if a' = a then (a, dictSet d k v) :: rest else (a', d) :: heapSetItem rest a k v

/-- The mutable state of one `IQstove` instance's value store:
`values` is `self.values`, `heap` holds the inner dictionary objects,
`nextAddr` is the allocator. -/
structure StoveState where
  values : Dict
  heap : Heap
  nextAddr : Nat
deriving DecidableEq, Repr

/-- The store of a freshly constructed client: empty. -/
def stoveInit : StoveState := { values := [], heap := [], nextAddr := 0 }

/-- The CPython exception an item assignment into a non-dictionary
raises. -/
inductive PyErr where
  | typeError
deriving DecidableEq, Repr

/-- `self.values.setdefault(base, {})[k] = v`: reuse the inner
dictionary if `base` maps to one, allocate a fresh empty one if `base`
is absent, and raise `TypeError` if `base` holds a non-dictionary. -/
def setNested (st : StoveState) (base k : PyStr) (v : PyVal) : Except PyErr StoveState :=
  match dictGet? st.values base with
  | some (.ref a) => .ok { st with heap := heapSetItem st.heap a k (.prim v) }
  | some (.prim _) => .error .typeError
  | Option.none =>
    let a := st.nextAddr
    .ok { values := dictSet st.values base (.ref a),
          heap := st.heap ++ [(a, [(k, .prim v)])],
          nextAddr := a + 1 }

/-! ### Parsing helpers (`_extract_bracket_range`,
`_parse_semicolon_numbers`) -/

/-- `_extract_bracket_range`: the substring strictly between the first
`'['` and the last `']'`, stripped; `""` when either bracket is
missing (the `except` path of the Python slice). -/
def extractBracketRange (key : PyStr) : PyStr :=
  match firstIdx? key '[', lastIdx? key ']' with
  | some i, some j => pyStrip ((key.drop (i + 1)).take (j - (i + 1)))
  | _, _ => []

/-- Coerce one semicolon-separated token: `int` if possible, else
`float`, else drop (`None`). -/
def pyNumToken? (tok : PyStr) : Option PyNum :=
  match pyToInt tok with
  | some n => some (.int n)
  | Option.none =>
    match pyToFloat tok with
    | some f => some (.float f)
    | Option.none => Option.none

/-- `_parse_semicolon_numbers`: strip embedded CR/LF, split on `';'`,
strip each part, skip empties, keep the tokens that coerce. -/
def parseSemicolonNumbers (value : PyStr) : List PyNum :=
  (splitSemi (value.filter (fun c => c ≠ '\r' ∧ c ≠ '\n'))).filterMap
    (fun part =>
      let token := pyStrip part
      if token = [] then Option.none else pyNumToken? token)

/-! ### `_store_value` -/

/-- The info keys, stored as strings (`{"_oemdev", "_oemver",
"_wversion", "_oemser"}`). -/
def infoKeys : List PyStr := [lit "_oemdev", lit "_oemver", lit "_wversion", lit "_oemser"]

/-- The statistics keys coerced to int
(`{"appPTx", "appP30Tx", "appIQDarst"}`). -/
def statsKeys : List PyStr := [lit "appPTx", lit "appP30Tx", lit "appIQDarst"]

/-- The slot holding `_to_int(value)` (an `int` or `None`). -/
def intSlot (value : PyStr) : Slot :=
  .prim (match pyToInt value with
         | some n => .int n
         | Option.none => .none)

/-- The slot holding `_to_float(value)` (a `float` or `None`). -/
def floatSlot (value : PyStr) : Slot :=
  .prim (match pyToFloat value with
         | some f => .float f
         | Option.none => .none)

/-- The guard `key.startswith("appPT[") and key.endswith("]")`. -/
def isHistPT (key : PyStr) : Bool :=
  (lit "appPT[").isPrefixOf key && (lit "]").isSuffixOf key

/-- The guard `key.startswith("appP30T[") and key.endswith("]")`. -/
def isHist30 (key : PyStr) : Bool :=
  (lit "appP30T[").isPrefixOf key && (lit "]").isSuffixOf key

/-- The dispatch chain of `_store_value`, before the final
`_last_updated` stamp.  The info branch of the Python code stamps and
returns early; both paths are expressed here by stamping afterwards in
`storeValue`. -/
def storeCore (st : StoveState) (key value : PyStr) : Except PyErr StoveState :=
  if key ∈ infoKeys then
    let v1 := dictSet st.values key (.prim (.str value))
    let v2 :=
      if key = lit "_oemver" then dictSet v1 (lit "oem_version") (.prim (.str value))
      else if key = lit "_wversion" then dictSet v1 (lit "firmware") (.prim (.str value))
      else if key = lit "_oemser" then dictSet v1 (lit "serial") (.prim (.str value))
      else v1
    .ok { st with values := v2 }
  else if key = lit "_ledBri" then
    .ok { st with values := dictSet st.values key (intSlot value) }
  else if key = lit "appP" then
    let v1 := dictSet st.values (lit "appP") (intSlot value)
    .ok { st with values := dictSet v1 (lit "performance") (intSlot value) }
  else if key = lit "appT" then
    let v1 := dictSet st.values (lit "appT") (floatSlot value)
    .ok { st with values := dictSet v1 (lit "temperature") (floatSlot value) }
  else if key = lit "appPhase" then
    let v1 := dictSet st.values (lit "appPhase") (intSlot value)
    let v2 := dictSet v1 (lit "phase") (intSlot value)
    .ok { st with values := dictSet v2 (lit "state") (intSlot value) }
  else if key = lit "appErr" then
    let v1 := dictSet st.values (lit "appErr") (intSlot value)
    .ok { st with values := dictSet v1 (lit "error") (intSlot value) }
  else if key = lit "appNach" then
    .ok { st with values := dictSet st.values (lit "appNach") (intSlot value) }
  else if key = lit "appAufheiz" then
    let v1 := dictSet st.values (lit "appAufheiz") (floatSlot value)
    .ok { st with values := dictSet v1 (lit "heatup") (floatSlot value) }
  else if key ∈ statsKeys then
    .ok { st with values := dictSet st.values key (intSlot value) }
  else if isHistPT key then
    setNested st (lit "appPT") (extractBracketRange key) (.list (parseSemicolonNumbers value))
  else if isHist30 key then
    setNested st (lit "appP30T") (extractBracketRange key) (.list (parseSemicolonNumbers value))
  else
    setNested st (lit "_other") key (.str value)

/-- `_store_value(key, value)`: the dispatch chain followed by the
`_last_updated` stamp (`now` is the `_iso_now()` timestamp, an input of
the model since it reads the wall clock). -/
def storeValue (st : StoveState) (key value now : PyStr) : Except PyErr StoveState :=
  match storeCore st key value with
  | .ok st1 =>
    .ok { st1 with values := dictSet st1.values (lit "_last_updated") (.prim (.str now)) }
  | .error e => .error e

/-- Read a top-level slot of the store. -/
def readTop (st : StoveState) (k : PyStr) : Option Slot :=
  dictGet? st.values k

/-- Read an entry of a nested dictionary (`values[base][k]`). -/
def readNested (st : StoveState) (base k : PyStr) : Option PyVal :=
  match dictGet? st.values base with
  | some (.ref a) =>
    match heapGet? st.heap a with
    | some d =>
      match dictGet? d k with
      | some (.prim v) => some v
      | _ => Option.none
    | Option.none => Option.none
  | _ => Option.none

/-! ### Base64 (`base64.b64encode` / `base64.b64decode(validate=True)`)

Bytes are modelled as natural numbers below 256. -/

/-- The base64 alphabet. -/
def b64Alphabet : List Char :=
  (lit "ABCDEFGHIJKLMNOPQRSTUVWXYZabcdefghijklmnopqrstuvwxyz0123456789+/")

/-- The alphabet character of a sextet. -/
def sextetChar (n : Nat) : Char := b64Alphabet.getD (n % 64) 'A'

/-- Scan for a character's sextet value. -/
def sextetFind (cs : List Char) (c : Char) (i : Nat) : Option Nat :=
  match cs with
  | [] => Option.none
  | a :: rest => if a = c then some i else sextetFind rest c (i + 1)

/-- The sextet value of an alphabet character, `none` for any other
character (including `'='`, whitespace and non-ASCII). -/
def sextetVal? (c : Char) : Option Nat := sextetFind b64Alphabet c 0

/-- `base64.b64encode`: encode bytes three at a time, padding the final
group with `'='`. -/
def b64EncodeBytes : List Nat → List Char
  | [] => []
  | [b1] => [sextetChar (b1 / 4), sextetChar (b1 % 4 * 16), '=', '=']
  | [b1, b2] =>
    [sextetChar (b1 / 4), sextetChar (b1 % 4 * 16 + b2 / 16), sextetChar (b2 % 16 * 4), '=']
  | b1 :: b2 :: b3 :: rest =>
    sextetChar (b1 / 4) :: sextetChar (b1 % 4 * 16 + b2 / 16) ::
      sextetChar (b2 % 16 * 4 + b3 / 64) :: sextetChar (b3 % 64) :: b64EncodeBytes rest

/-- `base64.b64decode(text, validate=True)`: the input must be quads of
alphabet characters, with `'='` padding allowed only at the very end
(CPython checks the regular expression `[A-Za-z0-9+/]*={0,2}` and then
requires a length that is a multiple of four); the spare bits of a
padded final group are discarded without checking.  `none` is the
`binascii.Error` / `ValueError` path that `_on_text` catches. -/
def b64DecodeBytes : List Char → Option (List Nat)
  | [] => some []
  | c1 :: c2 :: c3 :: c4 :: rest =>
    match sextetVal? c1, sextetVal? c2 with
    | some s1, some s2 =>
      if c3 = '=' then
        if c4 = '=' ∧ rest = [] then some [s1 * 4 + s2 / 16] else Option.none
      else
        match sextetVal? c3 with
        | some s3 =>
          if c4 = '=' then
            if rest = [] then some [s1 * 4 + s2 / 16, s2 % 16 * 16 + s3 / 4] else Option.none
          else
            match sextetVal? c4 with
            | some s4 =>
              (b64DecodeBytes rest).map
                (fun bs => (s1 * 4 + s2 / 16) :: (s2 % 16 * 16 + s3 / 4) :: (s3 % 4 * 64 + s4) :: bs)
            | Option.none => Option.none
        | Option.none => Option.none
    | _, _ => Option.none
  | _ => Option.none

/-! ### UTF-8 (`str.encode("utf-8")` / `bytes.decode("utf-8", "replace")`) -/

/-- UTF-8 encoding of one Unicode scalar value. -/
def utf8EncodeChar (n : Nat) : List Nat :=
  if n < 0x80 then [n]
  else if n < 0x800 then [0xC0 + n / 64, 0x80 + n % 64]
  else if n < 0x10000 then [0xE0 + n / 4096, 0x80 + n / 64 % 64, 0x80 + n % 64]
  else [0xF0 + n / 262144, 0x80 + n / 4096 % 64, 0x80 + n / 64 % 64, 0x80 + n % 64]

/-- `str.encode("utf-8")`. -/
def utf8Encode (cs : List Char) : List Nat :=
  cs.foldr (fun c acc => utf8EncodeChar c.toNat ++ acc) []

/-- The U+FFFD replacement character used by `errors="replace"`. -/
def replChar : Char := Char.ofNat 0xFFFD

/-- `bytes.decode("utf-8", errors="replace")`, written with a fuel
argument so that the recursion is structural (the wrapper passes the
input length, which always suffices since every step consumes at least
one byte).  Valid sequences decode exactly (overlong forms, surrogates
and out-of-range values are invalid).  An invalid leading byte yields
one replacement character and decoding resumes at the next byte;
CPython's maximal-subpart policy can merge what this model reports as
several replacement characters, but no theorem below decodes invalid
bytes. -/
def utf8DecodeGo : Nat → List Nat → List Char
  | _, [] => []
  | 0, _ :: _ => []
  | f + 1, b :: bs =>
    if b < 0x80 then Char.ofNat b :: utf8DecodeGo f bs
    else if b < 0xC2 ∨ 0xF4 < b then replChar :: utf8DecodeGo f bs
    else if b < 0xE0 then
      match bs with
      | b2 :: bs2 =>
        if 0x80 ≤ b2 ∧ b2 < 0xC0 then
          Char.ofNat ((b - 0xC0) * 64 + (b2 - 0x80)) :: utf8DecodeGo f bs2
        else replChar :: utf8DecodeGo f bs
      | [] => [replChar]
    else if b < 0xF0 then
      match bs with
      | b2 :: b3 :: bs3 =>
        if (0x80 ≤ b2 ∧ b2 < 0xC0) ∧ (0x80 ≤ b3 ∧ b3 < 0xC0) ∧
            (b = 0xE0 → 0xA0 ≤ b2) ∧ (b = 0xED → b2 < 0xA0) then
          Char.ofNat ((b - 0xE0) * 4096 + (b2 - 0x80) * 64 + (b3 - 0x80)) :: utf8DecodeGo f bs3
        else replChar :: utf8DecodeGo f bs
      | _ => replChar :: utf8DecodeGo f bs
    else
      match bs with
      | b2 :: b3 :: b4 :: bs4 =>
        if (0x80 ≤ b2 ∧ b2 < 0xC0) ∧ (0x80 ≤ b3 ∧ b3 < 0xC0) ∧ (0x80 ≤ b4 ∧ b4 < 0xC0) ∧
            (b = 0xF0 → 0x90 ≤ b2) ∧ (b = 0xF4 → b2 < 0x90) then
          Char.ofNat ((b - 0xF0) * 262144 + (b2 - 0x80) * 4096 + (b3 - 0x80) * 64 + (b4 - 0x80)) ::
            utf8DecodeGo f bs4
        else replChar :: utf8DecodeGo f bs
      | _ => replChar :: utf8DecodeGo f bs

/-- `bytes.decode("utf-8", errors="replace")`. -/
def utf8Decode (l : List Nat) : List Char := utf8DecodeGo l.length l

/-- `base64.b64encode(s.encode("utf-8"))` as sent by the device for a
text `s`. -/
def b64EncodeText (s : PyStr) : PyStr := b64EncodeBytes (utf8Encode s)

/-! ### The inbound frame handler (`_on_text`) -/

/-- The result of one `_on_text` call: the state afterwards, plus the
payload handed to every registered listener — `some (snapshot, key,
value)` for the `cb({"values": snapshot, "last": {key: value}})` call,
`none` when the frame was dropped before notification.  The snapshot is
`dict(self.values)`: a shallow copy, so it shares the heap. -/
abbrev OnTextResult := StoveState × Option (Dict × (PyStr × PyStr))

/-- `_on_text(data_text)`: strip, base64-decode (dropping the frame on
failure), UTF-8-decode with replacement, require an `'='` (dropping
the frame otherwise), split at the first `'='`, strip both halves,
store, and notify listeners with a shallow snapshot. -/
def onText (st : StoveState) (dataText now : PyStr) : Except PyErr OnTextResult :=
  let t := pyStrip dataText
  match b64DecodeBytes t with
  | Option.none => .ok (st, Option.none)
  | some bytes =>
    let decoded := utf8Decode bytes
    if '=' ∈ decoded then
      let p := splitEq1 decoded
      let key := pyStrip p.1
      let value := pyStrip p.2
      match storeValue st key value now with
      | .ok st' => .ok (st', some (st'.values, (key, value)))
      | .error e => .error e
    else .ok (st, Option.none)

/-! ### The coordinator-facing send path (`getValue` / `setValue`) -/

/-- The errors a send can surface: `IQStoveConnectionError` when not
connected, `UnicodeEncodeError` when the request line is not ASCII. -/
inductive ClientErr where
  | connectionError
  | encodingError
deriving DecidableEq, Repr

/-- One `IQstove` client: the websocket state, the value store, and the
frames sent so far. -/
structure Client where
  connected : Bool
  stove : StoveState
  sent : List PyStr
deriving DecidableEq, Repr

/-- `line.encode("ascii")`: `none` (a raised `UnicodeEncodeError`) when
any character is outside ASCII. -/
def asciiEncode? (cs : PyStr) : Option (List Nat) :=
  if cs.all (fun c => c.toNat < 128) then some (cs.map Char.toNat) else Option.none

/-- `_send_req(key)` (what the task returned by `getValue` runs): fail
with `IQStoveConnectionError` when not connected, else base64-encode
`"_req=<key>"` and send it; the client state is returned unchanged on
failure. -/
def sendReq (c : Client) (key : PyStr) : Option ClientErr × Client :=
  if c.connected = false then (some .connectionError, c)
  else
    let line := lit "_req=" ++ key
    match asciiEncode? line with
    | Option.none => (some .encodingError, c)
    | some bytes => (Option.none, { c with sent := c.sent ++ [b64EncodeBytes bytes] })

/-- `_send_set(key, value)` (what the task returned by `setValue` runs);
`value` is the `str()` form of the value. -/
def sendSet (c : Client) (key value : PyStr) : Option ClientErr × Client :=
  if c.connected = false then (some .connectionError, c)
  else
    let line := lit "_set=" ++ key ++ [';'] ++ value
    match asciiEncode? line with
    | Option.none => (some .encodingError, c)
    | some bytes => (Option.none, { c with sent := c.sent ++ [b64EncodeBytes bytes] })

/-- `getValue(cmd)`: the outcome observable through the returned task. -/
def getValue (c : Client) (cmd : PyStr) : Option ClientErr × Client := sendReq c cmd

/-- `setValue(cmd, value)`: the outcome observable through the returned
task. -/
def setValue (c : Client) (cmd value : PyStr) : Option ClientErr × Client := sendSet c cmd value

/-! ### Store invariant and observation helpers -/

/-- The keys whose top-level entry is a nested dictionary object. -/
def nestedKeys : List PyStr := [lit "appPT", lit "appP30T", lit "_other"]

/-- One top-level entry is well formed: immediate values never sit at a
nested-dictionary key, and references point into the heap. -/
def slotOk (h : Heap) (p : PyStr × Slot) : Bool :=
  match p.2 with
  | .prim _ => decide (p.1 ∉ nestedKeys)
  | .ref a => (heapGet? h a).isSome

/-- The store invariant maintained by the apply path from the empty
store: every entry is well formed and every heap address is below the
allocator. -/
def invB (st : StoveState) : Bool :=
  st.values.all (slotOk st.heap) && st.heap.all (fun p => decide (p.1 < st.nextAddr))

/-- Whether `key` is matched by the info, scalar-numeric or history
rules of `_store_value` (i.e. escapes the catch-all branch). -/
def isRecognized (key : PyStr) : Bool :=
  decide (key ∈ infoKeys) || decide (key = lit "_ledBri") || decide (key = lit "appP") ||
  decide (key = lit "appT") || decide (key = lit "appPhase") || decide (key = lit "appErr") ||
  decide (key = lit "appNach") || decide (key = lit "appAufheiz") ||
  decide (key ∈ statsKeys) || isHistPT key || isHist30 key

/-- What a holder of a snapshot dictionary observes for one slot when
the heap contents are `h`: an immediate value directly, a referenced
inner dictionary by its current entries. -/
inductive FlatVal where
  | val (v : PyVal)
  | dict (m : List (PyStr × Option PyVal))
  | dangling
deriving DecidableEq, Repr

/-- Resolve one slot against a heap. -/
def resolveSlot (h : Heap) : Slot → FlatVal
  | .prim v => .val v
  | .ref a =>
    match heapGet? h a with
    | some d =>
      .dict (d.map (fun p =>
        (p.1, match p.2 with
              | .prim v => some v
              | .ref _ => Option.none)))
    | Option.none => .dangling

/-- What a holder of a snapshot dictionary observes against a heap:
Python `==` comparison of the (possibly shared) nested contents. -/
def resolveDict (h : Heap) (d : Dict) : List (PyStr × FlatVal) :=
  d.map (fun p => (p.1, resolveSlot h p.2))

/-- Whether a slot holds an immediate value (not a shared nested
dictionary). -/
def primSlot : Slot → Bool
  | .prim _ => true
  | .ref _ => false

/-- Run one apply step with literal arguments, keeping the old state on
an exception (used only to phrase concrete scenarios; no exception
occurs in them). -/
def applyStep (st : StoveState) (key value : String) : StoveState :=
  match storeValue st (lit key) (lit value) [] with
  | .ok st' => st'
  | .error _ => st

/-- The listener payload of one inbound frame, `none` when the frame
was dropped or faulted. -/
def lastOf (r : Except PyErr OnTextResult) : Option (PyStr × PyStr) :=
  match r with
  | .ok (_, some (_, kv)) => some kv
  | _ => Option.none

/-- The snapshot handed to listeners by one inbound frame, if any. -/
def snapshotOf (r : Except PyErr OnTextResult) : Option Dict :=
  match r with
  | .ok (_, some (d, _)) => some d
  | _ => Option.none

/-- The state after one inbound frame, keeping the old state on an
exception. -/
def stateOf (st : StoveState) (r : Except PyErr OnTextResult) : StoveState :=
  match r with
  | .ok (st', _) => st'
  | .error _ => st

/-! ## Dictionary lemmas -/

theorem lit_ne {s t : String} (h : ¬ s = t) : lit s ≠ lit t := by
  intro hd
  exact h (String.ext hd)

theorem lit_eq_iff {s t : String} : lit s = lit t ↔ s = t :=
  ⟨fun h => String.ext h, fun h => by rw [h]⟩

theorem dictGet_set_self (d : Dict) (k : PyStr) (v : Slot) :
    dictGet? (dictSet d k v) k = some v := by
  induction d with
  | nil => simp [dictSet, dictGet?]
  | cons p rest ih =>
    obtain ⟨k', v'⟩ := p
    by_cases h : k' = k <;> simp [dictSet, dictGet?, h, ih]

theorem dictGet_set_ne (d : Dict) (k k' : PyStr) (v : Slot) (h : k' ≠ k) :
    dictGet? (dictSet d k v) k' = dictGet? d k' := by
  induction d with
  | nil => simp [dictSet, dictGet?, Ne.symm h]
  | cons p rest ih =>
    obtain ⟨k0, v0⟩ := p
    by_cases h0 : k0 = k
    · subst h0
      simp [dictSet, dictGet?, Ne.symm h]
    · simp [dictSet, dictGet?, h0, ih]

theorem dictGet_set_lit (d : Dict) (s t : String) (v : Slot) (h : ¬ t = s) :
    dictGet? (dictSet d (lit s) v) (lit t) = dictGet? d (lit t) :=
  dictGet_set_ne d (lit s) (lit t) v (lit_ne h)

theorem heapGet_setItem_self (h : Heap) (a : Nat) (k : PyStr) (v : Slot) (d : Dict)
    (hd : heapGet? h a = some d) :
    heapGet? (heapSetItem h a k v) a = some (dictSet d k v) := by
  induction h with
  | nil => simp [heapGet?] at hd
  | cons p rest ih =>
    obtain ⟨a0, d0⟩ := p
    by_cases h0 : a0 = a
    · subst h0
      simp [heapGet?] at hd
      subst hd
      simp [heapSetItem, heapGet?]
    · simp [heapGet?, h0] at hd
      simp [heapSetItem, heapGet?, h0, ih hd]

theorem heapGet_setItem_isSome (h : Heap) (a b : Nat) (k : PyStr) (v : Slot) :
    (heapGet? (heapSetItem h a k v) b).isSome = (heapGet? h b).isSome := by
  induction h with
  | nil => simp [heapSetItem]
  | cons p rest ih =>
    obtain ⟨a0, d0⟩ := p
    by_cases h0 : a0 = a
    · subst h0
      by_cases h1 : a0 = b
      · subst h1
        simp [heapSetItem, heapGet?]
      · simp [heapSetItem, heapGet?, h1, ih]
    · by_cases h1 : a0 = b
      · subst h1
        simp [heapSetItem, heapGet?, h0]
      · simp [heapSetItem, heapGet?, h0, h1, ih]

theorem heapGet_setItem_keys (h : Heap) (a : Nat) (k : PyStr) (v : Slot) :
    (heapSetItem h a k v).all (fun p => decide (p.1 < n)) = h.all (fun p => decide (p.1 < n)) := by
  induction h with
  | nil => simp [heapSetItem]
  | cons p rest ih =>
    obtain ⟨a0, d0⟩ := p
    by_cases h0 : a0 = a
    · subst h0
      simp [heapSetItem]
    · simp [heapSetItem, h0, ih]

theorem heapGet_append_isSome (h : Heap) (e : Nat × Dict) (b : Nat)
    (hs : (heapGet? h b).isSome = true) :
    (heapGet? (h ++ [e]) b).isSome = true := by
  induction h with
  | nil => simp [heapGet?] at hs
  | cons p rest ih =>
    obtain ⟨a0, d0⟩ := p
    by_cases h0 : a0 = b
    · simp [heapGet?, h0]
    · simp only [heapGet?, h0, if_false, List.cons_append] at hs ⊢
      exact ih hs

theorem heapGet_fresh (h : Heap) (a : Nat) (d : Dict)
    (hfresh : h.all (fun p => decide (p.1 < a)) = true) :
    heapGet? (h ++ [(a, d)]) a = some d := by
  induction h with
  | nil => simp [heapGet?]
  | cons p rest ih =>
    obtain ⟨a0, d0⟩ := p
    simp only [List.all_cons, Bool.and_eq_true, decide_eq_true_eq] at hfresh
    have hne : a0 ≠ a := by omega
    simp [heapGet?, hne, ih hfresh.2]

/-! ## C3 — scalar aliasing -/

/-- The state after a successful scalar/info `_store_value` whose values
are `v`. -/
def withValues (st : StoveState) (v : Dict) : StoveState := { st with values := v }

theorem storeValue_appT (st : StoveState) (value now : PyStr) :
    storeValue st (lit "appT") value now =
      .ok (withValues st
        (dictSet (dictSet (dictSet st.values (lit "appT") (floatSlot value))
          (lit "temperature") (floatSlot value)) (lit "_last_updated") (.prim (.str now)))) := rfl

/-- C3: applying each canonical scalar key stores the identically
coerced value under the canonical key and every alias, so an alias read
equals the canonical read afterwards. -/
theorem C3_alias_lockstep (st : StoveState) (value now : PyStr) :
    (∃ st', storeValue st (lit "appT") value now = .ok st' ∧
      readTop st' (lit "appT") = some (floatSlot value) ∧
      readTop st' (lit "temperature") = readTop st' (lit "appT")) ∧
    (∃ st', storeValue st (lit "appP") value now = .ok st' ∧
      readTop st' (lit "appP") = some (intSlot value) ∧
      readTop st' (lit "performance") = readTop st' (lit "appP")) ∧
    (∃ st', storeValue st (lit "appPhase") value now = .ok st' ∧
      readTop st' (lit "appPhase") = some (intSlot value) ∧
      readTop st' (lit "phase") = readTop st' (lit "appPhase") ∧
      readTop st' (lit "state") = readTop st' (lit "appPhase")) ∧
    (∃ st', storeValue st (lit "appAufheiz") value now = .ok st' ∧
      readTop st' (lit "appAufheiz") = some (floatSlot value) ∧
      readTop st' (lit "heatup") = readTop st' (lit "appAufheiz")) ∧
    (∃ st', storeValue st (lit "appErr") value now = .ok st' ∧
      readTop st' (lit "appErr") = some (intSlot value) ∧
      readTop st' (lit "error") = readTop st' (lit "appErr")) := by
  refine ⟨⟨_, rfl, ?_, ?_⟩, ⟨_, rfl, ?_, ?_⟩, ⟨_, rfl, ?_, ?_, ?_⟩, ⟨_, rfl, ?_, ?_⟩,
    ⟨_, rfl, ?_, ?_⟩⟩ <;>
    simp [readTop, withValues, dictGet_set_self, dictGet_set_lit]

/-! ## C7 — info keys stay strings, with fixed aliases -/

/-- C7: each info key stores the raw value as an uncoerced string, and
`_oemver`/`_wversion`/`_oemser` additionally store the same string
under `oem_version`/`firmware`/`serial`. -/
theorem C7_info_keys_verbatim (st : StoveState) (value now : PyStr) :
    (∃ st', storeValue st (lit "_oemdev") value now = .ok st' ∧
      readTop st' (lit "_oemdev") = some (.prim (.str value))) ∧
    (∃ st', storeValue st (lit "_oemver") value now = .ok st' ∧
      readTop st' (lit "_oemver") = some (.prim (.str value)) ∧
      readTop st' (lit "oem_version") = some (.prim (.str value))) ∧
    (∃ st', storeValue st (lit "_wversion") value now = .ok st' ∧
      readTop st' (lit "_wversion") = some (.prim (.str value)) ∧
      readTop st' (lit "firmware") = some (.prim (.str value))) ∧
    (∃ st', storeValue st (lit "_oemser") value now = .ok st' ∧
      readTop st' (lit "_oemser") = some (.prim (.str value)) ∧
      readTop st' (lit "serial") = some (.prim (.str value))) := by
  refine ⟨⟨_, rfl, ?_⟩, ⟨_, rfl, ?_, ?_⟩, ⟨_, rfl, ?_, ?_⟩, ⟨_, rfl, ?_, ?_⟩⟩ <;>
    simp [readTop, withValues, lit_eq_iff, dictGet_set_self, dictGet_set_lit]

/-! ## C1 — numeric coercion failure

The claim says a failed coercion leaves the entry absent/unchanged.  In
the code every numeric branch assigns `_to_int(value)` /
`_to_float(value)` unconditionally, so a failure stores `None`,
overwriting any previous value. -/

/-- C1 counterexample: after `appP=5` the store holds `5`; a subsequent
`appP=abc` (whose coercion fails) neither leaves the entry absent nor
unchanged — it overwrites it with `None` (and the alias too). -/
theorem C1_counterexample :
    pyToInt (lit "abc") = Option.none ∧
    readTop (applyStep stoveInit "appP" "5") (lit "appP") = some (.prim (.int 5)) ∧
    readTop (applyStep (applyStep stoveInit "appP" "5") "appP" "abc") (lit "appP") =
      some (.prim .none) ∧
    readTop (applyStep (applyStep stoveInit "appP" "5") "appP" "abc") (lit "performance") =
      some (.prim .none) := by
  refine ⟨rfl, rfl, rfl, rfl⟩

/-- C1 amended: a coercion failure on a numeric key raises no exception,
but stores Python `None` under the key and each of its aliases,
overwriting any prior entry (rather than leaving it absent/unchanged). -/
theorem C1_amended (st : StoveState) (value now : PyStr) :
    (pyToInt value = Option.none →
      ∀ p ∈ [(lit "_ledBri", ([] : List PyStr)),
             (lit "appP", [lit "performance"]),
             (lit "appPhase", [lit "phase", lit "state"]),
             (lit "appErr", [lit "error"]),
             (lit "appNach", ([] : List PyStr)),
             (lit "appPTx", ([] : List PyStr)),
             (lit "appP30Tx", ([] : List PyStr)),
             (lit "appIQDarst", ([] : List PyStr))],
      ∃ st', storeValue st p.1 value now = .ok st' ∧
        readTop st' p.1 = some (.prim .none) ∧
        ∀ a ∈ p.2, readTop st' a = some (.prim .none)) ∧
    (pyToFloat value = Option.none →
      ∀ p ∈ [(lit "appT", [lit "temperature"]),
             (lit "appAufheiz", [lit "heatup"])],
      ∃ st', storeValue st p.1 value now = .ok st' ∧
        readTop st' p.1 = some (.prim .none) ∧
        ∀ a ∈ p.2, readTop st' a = some (.prim .none)) := by
  constructor
  · intro hint p hp
    have hslot : intSlot value = .prim .none := by
      simp [intSlot, hint]
    fin_cases hp <;> refine ⟨_, rfl, ?_, ?_⟩ <;>
      try (intro a ha; fin_cases ha)
    all_goals
      simp [readTop, withValues, hslot, dictGet_set_self, dictGet_set_lit]
  · intro hfl p hp
    have hslot : floatSlot value = .prim .none := by
      simp [floatSlot, hfl]
    fin_cases hp <;> refine ⟨_, rfl, ?_, ?_⟩ <;>
      try (intro a ha; fin_cases ha)
    all_goals
      simp [readTop, withValues, hslot, dictGet_set_self, dictGet_set_lit]

/-- C1 amended witness: `appP=abc` stores `None` under `appP` and
`performance` without raising. -/
theorem C1_amended_witness :
    pyToInt (lit "abc") = Option.none ∧
    ∃ st', storeValue stoveInit (lit "appP") (lit "abc") (lit "T") = .ok st' ∧
      readTop st' (lit "appP") = some (.prim .none) ∧
      ∀ a ∈ [lit "performance"], readTop st' a = some (.prim .none) :=
  ⟨by decide,
   (C1_amended stoveInit (lit "abc") (lit "T")).1 (by decide)
     (lit "appP", [lit "performance"]) (by simp)⟩

/-! ## Invariant machinery -/

theorem all_mem {α} {f : α → Bool} {l : List α} (h : l.all f = true) {x : α} (hx : x ∈ l) :
    f x = true := by
  rw [List.all_eq_true] at h
  exact h x hx

theorem all_of_imp {α} {f g : α → Bool} {l : List α} (h : l.all f = true)
    (himp : ∀ x, f x = true → g x = true) : l.all g = true := by
  rw [List.all_eq_true] at h ⊢
  exact fun x hx => himp x (h x hx)

theorem all_dictSet {f : PyStr × Slot → Bool} (d : Dict) (hd : d.all f = true)
    (k : PyStr) (v : Slot) (hkv : f (k, v) = true) : (dictSet d k v).all f = true := by
  induction d with
  | nil => simpa [dictSet]
  | cons p rest ih =>
    obtain ⟨k0, v0⟩ := p
    simp only [List.all_cons, Bool.and_eq_true] at hd
    by_cases h0 : k0 = k
    · simp [dictSet, h0, hkv, hd.2]
    · simp [dictSet, h0, hd.1, ih hd.2]

theorem all_dictGet {f : PyStr × Slot → Bool} (d : Dict) (hd : d.all f = true)
    (k : PyStr) (s : Slot) (hg : dictGet? d k = some s) : f (k, s) = true := by
  induction d with
  | nil => simp [dictGet?] at hg
  | cons p rest ih =>
    obtain ⟨k0, v0⟩ := p
    simp only [List.all_cons, Bool.and_eq_true] at hd
    by_cases h0 : k0 = k
    · subst h0
      simp [dictGet?] at hg
      subst hg
      exact hd.1
    · simp only [dictGet?, h0, if_false] at hg
      exact ih hd.2 hg

theorem slotOk_setItem (h : Heap) (a : Nat) (k : PyStr) (v : Slot) (p : PyStr × Slot) :
    slotOk (heapSetItem h a k v) p = slotOk h p := by
  obtain ⟨k0, s0⟩ := p
  cases s0 with
  | prim _ => rfl
  | ref b => simp [slotOk, heapGet_setItem_isSome]

theorem slotOk_append (h : Heap) (e : Nat × Dict) (p : PyStr × Slot)
    (hp : slotOk h p = true) : slotOk (h ++ [e]) p = true := by
  obtain ⟨k0, s0⟩ := p
  cases s0 with
  | prim _ => exact hp
  | ref b => exact heapGet_append_isSome h e b hp

theorem all_lt_succ (h : Heap) (n : Nat)
    (hall : h.all (fun p => decide (p.1 < n)) = true) :
    h.all (fun p => decide (p.1 < n + 1)) = true := by
  refine all_of_imp hall fun p hp => ?_
  simp only [decide_eq_true_eq] at hp ⊢
  omega

/-- `setdefault(base, {})[k] = v` succeeds on an invariant-satisfying
store, preserves the invariant, makes `values[base][k]` read back `v`,
and leaves every other top-level entry untouched. -/
theorem setNested_ok (st : StoveState) (base k : PyStr) (v : PyVal)
    (hInv : invB st = true) (hbase : base ∈ nestedKeys) :
    ∃ st', setNested st base k v = .ok st' ∧ invB st' = true ∧
      readNested st' base k = some v ∧
      (∀ k', k' ≠ base → dictGet? st'.values k' = dictGet? st.values k') := by
  simp only [invB, Bool.and_eq_true] at hInv
  obtain ⟨hvals, hheap⟩ := hInv
  cases hb : dictGet? st.values base with
  | none =>
    refine ⟨{ values := dictSet st.values base (.ref st.nextAddr),
              heap := st.heap ++ [(st.nextAddr, [(k, .prim v)])],
              nextAddr := st.nextAddr + 1 }, by simp [setNested, hb], ?_, ?_, ?_⟩
    · simp only [invB, Bool.and_eq_true]
      constructor
      · refine all_dictSet _ (all_of_imp hvals fun p hp => slotOk_append _ _ _ hp) _ _ ?_
        have hfresh := heapGet_fresh st.heap st.nextAddr [(k, .prim v)] hheap
        simp [slotOk, hfresh]
      · simp only [List.all_append, Bool.and_eq_true]
        exact ⟨all_lt_succ _ _ hheap, by simp⟩
    · have hfresh := heapGet_fresh st.heap st.nextAddr [(k, .prim v)] hheap
      simp [readNested, dictGet_set_self, hfresh, dictGet?]
    · intro k' hk'
      exact dictGet_set_ne _ _ _ _ hk'
  | some s =>
    cases s with
    | prim p =>
      exfalso
      have := all_dictGet _ hvals _ _ hb
      simp only [slotOk, decide_eq_true_eq] at this
      exact this hbase
    | ref a =>
      have hsome : (heapGet? st.heap a).isSome = true := by
        have := all_dictGet _ hvals _ _ hb
        simpa [slotOk] using this
      obtain ⟨d, hd⟩ := Option.isSome_iff_exists.mp hsome
      refine ⟨{ st with heap := heapSetItem st.heap a k (.prim v) },
        by simp [setNested, hb], ?_, ?_, ?_⟩
      · simp only [invB, Bool.and_eq_true]
        constructor
        · exact all_of_imp hvals fun p hp => by rw [slotOk_setItem]; exact hp
        · rw [heapGet_setItem_keys]
          exact hheap
      · have hset := heapGet_setItem_self st.heap a k (.prim v) d hd
        simp [readNested, hb, hset, dictGet_set_self]
      · intro k' hk'
        rfl

/-- The `_last_updated` stamp (or any write of an immediate value at a
non-nested key) preserves the invariant. -/
theorem invB_set_prim (st : StoveState) (k : PyStr) (v : PyVal)
    (hInv : invB st = true) (hk : k ∉ nestedKeys) :
    invB { st with values := dictSet st.values k (.prim v) } = true := by
  simp only [invB, Bool.and_eq_true] at hInv ⊢
  refine ⟨all_dictSet _ hInv.1 _ _ ?_, hInv.2⟩
  simp [slotOk, hk]

/-- Stamping a top-level immediate value does not change a nested read
at a different base key. -/
theorem readNested_set_other (st : StoveState) (base k ku : PyStr) (v' : Slot)
    (hne : base ≠ ku) :
    readNested { st with values := dictSet st.values ku v' } base k = readNested st base k := by
  unfold readNested
  rw [dictGet_set_ne _ _ _ _ hne]

/-- Every dispatch branch of `_store_value` before the stamp returns
normally on an invariant-satisfying store and preserves the invariant. -/
theorem storeCore_ok (st : StoveState) (key value : PyStr) (hInv : invB st = true) :
    ∃ st1, storeCore st key value = .ok st1 ∧ invB st1 = true := by
  by_cases hinfo : key ∈ infoKeys
  · simp only [infoKeys, List.mem_cons, List.not_mem_nil, or_false] at hinfo
    rcases hinfo with rfl | rfl | rfl | rfl
    · exact ⟨_, rfl, invB_set_prim _ _ _ hInv (by decide)⟩
    · exact ⟨_, rfl, invB_set_prim _ _ _ (invB_set_prim _ _ _ hInv (by decide)) (by decide)⟩
    · exact ⟨_, rfl, invB_set_prim _ _ _ (invB_set_prim _ _ _ hInv (by decide)) (by decide)⟩
    · exact ⟨_, rfl, invB_set_prim _ _ _ (invB_set_prim _ _ _ hInv (by decide)) (by decide)⟩
  · by_cases h1 : key = lit "_ledBri"
    · subst h1
      exact ⟨_, rfl, invB_set_prim _ _ _ hInv (by decide)⟩
    by_cases h2 : key = lit "appP"
    · subst h2
      exact ⟨_, rfl, invB_set_prim _ _ _ (invB_set_prim _ _ _ hInv (by decide)) (by decide)⟩
    by_cases h3 : key = lit "appT"
    · subst h3
      exact ⟨_, rfl, invB_set_prim _ _ _ (invB_set_prim _ _ _ hInv (by decide)) (by decide)⟩
    by_cases h4 : key = lit "appPhase"
    · subst h4
      exact ⟨_, rfl, invB_set_prim _ _ _
        (invB_set_prim _ _ _ (invB_set_prim _ _ _ hInv (by decide)) (by decide)) (by decide)⟩
    by_cases h5 : key = lit "appErr"
    · subst h5
      exact ⟨_, rfl, invB_set_prim _ _ _ (invB_set_prim _ _ _ hInv (by decide)) (by decide)⟩
    by_cases h6 : key = lit "appNach"
    · subst h6
      exact ⟨_, rfl, invB_set_prim _ _ _ hInv (by decide)⟩
    by_cases h7 : key = lit "appAufheiz"
    · subst h7
      exact ⟨_, rfl, invB_set_prim _ _ _ (invB_set_prim _ _ _ hInv (by decide)) (by decide)⟩
    by_cases h8 : key ∈ statsKeys
    · simp only [statsKeys, List.mem_cons, List.not_mem_nil, or_false] at h8
      have hcore : storeCore st key value =
          .ok { st with values := dictSet st.values key (intSlot value) } := by
        rcases h8 with rfl | rfl | rfl <;> rfl
      refine ⟨_, hcore, ?_⟩
      have hkn : key ∉ nestedKeys := by
        rcases h8 with rfl | rfl | rfl <;> decide
      exact invB_set_prim _ _ _ hInv hkn
    by_cases h9 : isHistPT key = true
    · obtain ⟨st1, hs, hi, _, _⟩ :=
        setNested_ok st (lit "appPT") (extractBracketRange key)
          (.list (parseSemicolonNumbers value)) hInv (by decide)
      refine ⟨st1, ?_, hi⟩
      simp only [storeCore, if_neg hinfo, if_neg h1, if_neg h2, if_neg h3, if_neg h4,
        if_neg h5, if_neg h6, if_neg h7, if_neg h8, if_pos h9]
      exact hs
    by_cases h10 : isHist30 key = true
    · obtain ⟨st1, hs, hi, _, _⟩ :=
        setNested_ok st (lit "appP30T") (extractBracketRange key)
          (.list (parseSemicolonNumbers value)) hInv (by decide)
      refine ⟨st1, ?_, hi⟩
      simp only [storeCore, if_neg hinfo, if_neg h1, if_neg h2, if_neg h3, if_neg h4,
        if_neg h5, if_neg h6, if_neg h7, if_neg h8, if_neg h9, if_pos h10]
      exact hs
    · obtain ⟨st1, hs, hi, _, _⟩ :=
        setNested_ok st (lit "_other") key (.str value) hInv (by decide)
      refine ⟨st1, ?_, hi⟩
      simp only [storeCore, if_neg hinfo, if_neg h1, if_neg h2, if_neg h3, if_neg h4,
        if_neg h5, if_neg h6, if_neg h7, if_neg h8, if_neg h9, if_neg h10]
      exact hs

/-! ## C10 — the apply path is total -/

/-- C10: on any store reachable from the empty one (`invB`), every
`_store_value(key, value)` returns normally — the coercion helpers
return `None` instead of raising and every branch terminates — with the
invariant preserved and `_last_updated` stamped. -/
theorem C10_apply_total (st : StoveState) (key value now : PyStr) (hInv : invB st = true) :
    ∃ st', storeValue st key value now = .ok st' ∧ invB st' = true ∧
      readTop st' (lit "_last_updated") = some (.prim (.str now)) := by
  obtain ⟨st1, hcore, hinv1⟩ := storeCore_ok st key value hInv
  refine ⟨{ st1 with values := dictSet st1.values (lit "_last_updated") (.prim (.str now)) },
    ?_, ?_, ?_⟩
  · simp only [storeValue, hcore]
  · exact invB_set_prim _ _ _ hinv1 (by decide)
  · simp [readTop, dictGet_set_self]

/-- C10 witness. -/
theorem C10_apply_total_witness :
    invB stoveInit = true ∧
    ∃ st', storeValue stoveInit (lit "fooBar") (lit "x") (lit "T") = .ok st' ∧
      invB st' = true ∧ readTop st' (lit "_last_updated") = some (.prim (.str (lit "T"))) :=
  ⟨by decide, C10_apply_total stoveInit (lit "fooBar") (lit "x") (lit "T") (by decide)⟩

/-- The invariant holds for the empty store of a fresh client. -/
theorem invB_init : invB stoveInit = true := by decide

/-! ## C4 — history keys -/

theorem lastIdx_close (xs : PyStr) : lastIdx? (xs ++ [']']) ']' = some xs.length := by
  induction xs with
  | nil => rfl
  | cons a rest ih => simp [lastIdx?, ih]

theorem extract_appPT (lbl : PyStr) :
    extractBracketRange (lit "appPT[" ++ lbl ++ lit "]") = pyStrip lbl := by
  have h1 : firstIdx? (lit "appPT[" ++ lbl ++ lit "]") '[' = some 5 := rfl
  have h2 : lastIdx? (lit "appPT[" ++ lbl ++ lit "]") ']' = some (lbl.length + 6) :=
    lastIdx_close (lit "appPT[" ++ lbl)
  simp only [extractBracketRange, h1, h2]
  have hdrop : (lit "appPT[" ++ lbl ++ lit "]").drop (5 + 1) = lbl ++ lit "]" := rfl
  rw [hdrop, show lbl.length + 6 - (5 + 1) = lbl.length by omega]
  exact congrArg pyStrip (List.take_left lbl (lit "]"))

theorem extract_appP30T (lbl : PyStr) :
    extractBracketRange (lit "appP30T[" ++ lbl ++ lit "]") = pyStrip lbl := by
  have h1 : firstIdx? (lit "appP30T[" ++ lbl ++ lit "]") '[' = some 7 := rfl
  have h2 : lastIdx? (lit "appP30T[" ++ lbl ++ lit "]") ']' = some (lbl.length + 8) :=
    lastIdx_close (lit "appP30T[" ++ lbl)
  simp only [extractBracketRange, h1, h2]
  have hdrop : (lit "appP30T[" ++ lbl ++ lit "]").drop (7 + 1) = lbl ++ lit "]" := rfl
  rw [hdrop, show lbl.length + 8 - (7 + 1) = lbl.length by omega]
  exact congrArg pyStrip (List.take_left lbl (lit "]"))

theorem isHistPT_shape (lbl : PyStr) : isHistPT (lit "appPT[" ++ lbl ++ lit "]") = true := by
  unfold isHistPT
  rw [Bool.and_eq_true, List.isPrefixOf_iff_prefix, List.isSuffixOf_iff_suffix]
  exact ⟨by rw [List.append_assoc]; exact List.prefix_append _ _, List.suffix_append _ _⟩

theorem isHist30_shape (lbl : PyStr) : isHist30 (lit "appP30T[" ++ lbl ++ lit "]") = true := by
  unfold isHist30
  rw [Bool.and_eq_true, List.isPrefixOf_iff_prefix, List.isSuffixOf_iff_suffix]
  exact ⟨by rw [List.append_assoc]; exact List.prefix_append _ _, List.suffix_append _ _⟩

/-- C4: for any history key `appPT[<lbl>]` or `appP30T[<lbl>]` — the
label being whatever sits between the first `'['` and the last `']'`,
whitespace-trimmed — apply stores the parsed semicolon series (ints
where possible, else floats, unparseable tokens dropped) in the nested
dictionary of the base under the trimmed label. -/
theorem C4_history_parse (st : StoveState) (lbl value now : PyStr) (hInv : invB st = true) :
    (∃ st', storeValue st (lit "appPT[" ++ lbl ++ lit "]") value now = .ok st' ∧
      readNested st' (lit "appPT") (pyStrip lbl) =
        some (.list (parseSemicolonNumbers value))) ∧
    (∃ st', storeValue st (lit "appP30T[" ++ lbl ++ lit "]") value now = .ok st' ∧
      readNested st' (lit "appP30T") (pyStrip lbl) =
        some (.list (parseSemicolonNumbers value))) := by
  constructor
  · have h9 := isHistPT_shape lbl
    obtain ⟨st1, hs, hi1, hread, hframe⟩ :=
      setNested_ok st (lit "appPT") (extractBracketRange (lit "appPT[" ++ lbl ++ lit "]"))
        (.list (parseSemicolonNumbers value)) hInv (by decide)
    have hcore : storeCore st (lit "appPT[" ++ lbl ++ lit "]") value = .ok st1 := by
      simp only [storeCore, reduceIte, h9]
      exact hs
    refine ⟨{ st1 with values := dictSet st1.values (lit "_last_updated") (.prim (.str now)) },
      by simp only [storeValue, hcore], ?_⟩
    rw [readNested_set_other _ _ _ _ _ (lit_ne (by decide))]
    rw [extract_appPT] at hread
    exact hread
  · have h10 := isHist30_shape lbl
    obtain ⟨st1, hs, hi1, hread, hframe⟩ :=
      setNested_ok st (lit "appP30T") (extractBracketRange (lit "appP30T[" ++ lbl ++ lit "]"))
        (.list (parseSemicolonNumbers value)) hInv (by decide)
    have hcore : storeCore st (lit "appP30T[" ++ lbl ++ lit "]") value = .ok st1 := by
      simp only [storeCore, reduceIte, h10]
      exact hs
    refine ⟨{ st1 with values := dictSet st1.values (lit "_last_updated") (.prim (.str now)) },
      by simp only [storeValue, hcore], ?_⟩
    rw [readNested_set_other _ _ _ _ _ (lit_ne (by decide))]
    rw [extract_appP30T] at hread
    exact hread

/-- C4 witness: `appPT[0;2]=1;2;3` yields `values["appPT"]["0;2"] ==
[1, 2, 3]` as integers (and likewise for `appP30T`). -/
theorem C4_history_parse_witness :
    invB stoveInit = true ∧
    parseSemicolonNumbers (lit "1;2;3") = [.int 1, .int 2, .int 3] ∧
    pyStrip (lit "0;2") = lit "0;2" ∧
    ((∃ st', storeValue stoveInit (lit "appPT[" ++ lit "0;2" ++ lit "]") (lit "1;2;3")
        (lit "T") = .ok st' ∧
      readNested st' (lit "appPT") (pyStrip (lit "0;2")) =
        some (.list (parseSemicolonNumbers (lit "1;2;3")))) ∧
     (∃ st', storeValue stoveInit (lit "appP30T[" ++ lit "0;2" ++ lit "]") (lit "1;2;3")
        (lit "T") = .ok st' ∧
      readNested st' (lit "appP30T") (pyStrip (lit "0;2")) =
        some (.list (parseSemicolonNumbers (lit "1;2;3"))))) :=
  ⟨by decide, by decide, by decide,
    C4_history_parse stoveInit (lit "0;2") (lit "1;2;3") (lit "T") (by decide)⟩

/-! ## C8 — catch-all bucket -/

/-- C8: a key matched by none of the info, scalar-numeric or history
rules is kept verbatim (as the raw string) in the `_other` bucket under
its original name, without raising. -/
theorem C8_catchall (st : StoveState) (key value now : PyStr)
    (hInv : invB st = true) (hunrec : isRecognized key = false) :
    ∃ st', storeValue st key value now = .ok st' ∧
      readNested st' (lit "_other") key = some (.str value) := by
  simp only [isRecognized, Bool.or_eq_false_iff, decide_eq_false_iff_not] at hunrec
  obtain ⟨⟨⟨⟨⟨⟨⟨⟨⟨⟨hinfo, h1⟩, h2⟩, h3⟩, h4⟩, h5⟩, h6⟩, h7⟩, h8⟩, h9⟩, h10⟩ := hunrec
  obtain ⟨st1, hs, hi1, hread, hframe⟩ :=
    setNested_ok st (lit "_other") key (.str value) hInv (by decide)
  have hcore : storeCore st key value = .ok st1 := by
    simp only [storeCore, if_neg hinfo, if_neg h1, if_neg h2, if_neg h3, if_neg h4,
      if_neg h5, if_neg h6, if_neg h7, if_neg h8, h9, h10]
    simp only [Bool.false_eq_true, if_false]
    exact hs
  refine ⟨{ st1 with values := dictSet st1.values (lit "_last_updated") (.prim (.str now)) },
    by simp only [storeValue, hcore], ?_⟩
  rw [readNested_set_other _ _ _ _ _ (lit_ne (by decide))]
  exact hread

/-- C8 witness: unknown key `fooBar=42` lands in the bucket under
`fooBar` without raising. -/
theorem C8_catchall_witness :
    invB stoveInit = true ∧ isRecognized (lit "fooBar") = false ∧
    ∃ st', storeValue stoveInit (lit "fooBar") (lit "42") (lit "T") = .ok st' ∧
      readNested st' (lit "_other") (lit "fooBar") = some (.str (lit "42")) :=
  ⟨by decide, by decide,
    C8_catchall stoveInit (lit "fooBar") (lit "42") (lit "T") (by decide) (by decide)⟩

/-! ## C6 — sends while disconnected -/

/-- C6: while not connected, `getValue` and `setValue` surface
`IQStoveConnectionError` through the returned handle and leave the
whole client — value store included — unchanged; no frame is sent. -/
theorem C6_not_connected (c : Client) (key value : PyStr) (h : c.connected = false) :
    getValue c key = (some .connectionError, c) ∧
    setValue c key value = (some .connectionError, c) := by
  constructor <;> simp [getValue, setValue, sendReq, sendSet, h]

/-- C6 witness. -/
theorem C6_not_connected_witness :
    ({ connected := false, stove := stoveInit, sent := [] } : Client).connected = false ∧
    getValue { connected := false, stove := stoveInit, sent := [] } (lit "appT") =
      (some .connectionError, { connected := false, stove := stoveInit, sent := [] }) ∧
    setValue { connected := false, stove := stoveInit, sent := [] } (lit "_ledBri") (lit "3") =
      (some .connectionError, { connected := false, stove := stoveInit, sent := [] }) :=
  ⟨rfl, C6_not_connected { connected := false, stove := stoveInit, sent := [] }
    (lit "appT") (lit "3") rfl |>.1,
   C6_not_connected { connected := false, stove := stoveInit, sent := [] }
    (lit "_ledBri") (lit "3") rfl |>.2⟩

/-! ## Base64 round-trip -/

theorem sextetVal_getD : ∀ m < 64, sextetVal? (b64Alphabet.getD m 'A') = some m := by decide

theorem sextetChar_valid : ∀ m < 64,
    b64Alphabet.getD m 'A' ≠ '=' ∧ pyIsSpace (b64Alphabet.getD m 'A') = false := by decide

theorem sextetVal_sextetChar (n : Nat) : sextetVal? (sextetChar n) = some (n % 64) :=
  sextetVal_getD (n % 64) (Nat.mod_lt n (by norm_num))

theorem sextetChar_ne_pad (n : Nat) : sextetChar n ≠ '=' :=
  (sextetChar_valid (n % 64) (Nat.mod_lt n (by norm_num))).1

theorem sextetChar_not_space (n : Nat) : pyIsSpace (sextetChar n) = false :=
  (sextetChar_valid (n % 64) (Nat.mod_lt n (by norm_num))).2

/-- Decoding inverts encoding on byte lists. -/
theorem b64_roundtrip (bs : List Nat) (hb : ∀ b ∈ bs, b < 256) :
    b64DecodeBytes (b64EncodeBytes bs) = some bs := by
  induction bs using b64EncodeBytes.induct with
  | case1 => rfl
  | case2 b1 =>
    have hb1 : b1 < 256 := hb b1 (by simp)
    simp only [b64EncodeBytes, b64DecodeBytes, sextetVal_sextetChar, reduceIte,
      Option.some.injEq, List.cons.injEq, and_true]
    omega
  | case3 b1 b2 =>
    have hb1 : b1 < 256 := hb b1 (by simp)
    have hb2 : b2 < 256 := hb b2 (by simp)
    simp only [b64EncodeBytes, b64DecodeBytes, sextetVal_sextetChar,
      if_neg (sextetChar_ne_pad (b2 % 16 * 4)), reduceIte,
      Option.some.injEq, List.cons.injEq, and_true]
    omega
  | case4 b1 b2 b3 rest ih =>
    have hb1 : b1 < 256 := hb b1 (by simp)
    have hb2 : b2 < 256 := hb b2 (by simp)
    have hb3 : b3 < 256 := hb b3 (by simp)
    have hrest : ∀ b ∈ rest, b < 256 := fun b hbr => hb b (by simp [hbr])
    simp only [b64EncodeBytes, b64DecodeBytes, sextetVal_sextetChar,
      if_neg (sextetChar_ne_pad (b2 % 16 * 4 + b3 / 64)),
      if_neg (sextetChar_ne_pad (b3 % 64)), ih hrest, Option.map_some', Option.map_some,
      Option.some.injEq, List.cons.injEq, and_true]
    omega

/-! ## UTF-8 round-trip -/

theorem char_valid (c : Char) :
    c.toNat < 0xD800 ∨ (0xDFFF < c.toNat ∧ c.toNat < 0x110000) := c.valid

/-- Decoding one encoded scalar value at the head of a byte stream
consumes exactly its bytes (and one unit of fuel). -/
theorem utf8DecodeGo_enc (f : Nat) (c : Char) (rest : List Nat) :
    utf8DecodeGo (f + 1) (utf8EncodeChar c.toNat ++ rest) = c :: utf8DecodeGo f rest := by
  have hval := char_valid c
  by_cases h1 : c.toNat < 0x80
  · rw [show utf8EncodeChar c.toNat = [c.toNat] by simp [utf8EncodeChar, h1]]
    simp only [List.cons_append, List.nil_append]
    simp only [utf8DecodeGo, if_pos h1]
    rw [Char.ofNat_toNat]
  by_cases h2 : c.toNat < 0x800
  · rw [show utf8EncodeChar c.toNat = [0xC0 + c.toNat / 64, 0x80 + c.toNat % 64] by
      simp [utf8EncodeChar, h1, h2]]
    simp only [List.cons_append, List.nil_append]
    have ha : ¬(0xC0 + c.toNat / 64 < 0x80) := by omega
    have hb : ¬(0xC0 + c.toNat / 64 < 0xC2 ∨ 0xF4 < 0xC0 + c.toNat / 64) := by omega
    have hc : 0xC0 + c.toNat / 64 < 0xE0 := by omega
    have hd : 0x80 ≤ 0x80 + c.toNat % 64 ∧ 0x80 + c.toNat % 64 < 0xC0 := by omega
    simp only [utf8DecodeGo, if_neg ha, if_neg hb, if_pos hc, if_pos hd]
    congr 1
    rw [show (0xC0 + c.toNat / 64 - 0xC0) * 64 + (0x80 + c.toNat % 64 - 0x80) = c.toNat by
      omega]
    exact Char.ofNat_toNat c
  by_cases h3 : c.toNat < 0x10000
  · rw [show utf8EncodeChar c.toNat =
        [0xE0 + c.toNat / 4096, 0x80 + c.toNat / 64 % 64, 0x80 + c.toNat % 64] by
      simp [utf8EncodeChar, h1, h2, h3]]
    simp only [List.cons_append, List.nil_append]
    have ha : ¬(0xE0 + c.toNat / 4096 < 0x80) := by omega
    have hb : ¬(0xE0 + c.toNat / 4096 < 0xC2 ∨ 0xF4 < 0xE0 + c.toNat / 4096) := by omega
    have hc : ¬(0xE0 + c.toNat / 4096 < 0xE0) := by omega
    have hd : 0xE0 + c.toNat / 4096 < 0xF0 := by omega
    have he : (0x80 ≤ 0x80 + c.toNat / 64 % 64 ∧ 0x80 + c.toNat / 64 % 64 < 0xC0) ∧
        (0x80 ≤ 0x80 + c.toNat % 64 ∧ 0x80 + c.toNat % 64 < 0xC0) ∧
        (0xE0 + c.toNat / 4096 = 0xE0 → 0xA0 ≤ 0x80 + c.toNat / 64 % 64) ∧
        (0xE0 + c.toNat / 4096 = 0xED → 0x80 + c.toNat / 64 % 64 < 0xA0) := by omega
    simp only [utf8DecodeGo, if_neg ha, if_neg hb, if_neg hc, if_pos hd, if_pos he]
    congr 1
    rw [show (0xE0 + c.toNat / 4096 - 0xE0) * 4096 + (0x80 + c.toNat / 64 % 64 - 0x80) * 64 +
        (0x80 + c.toNat % 64 - 0x80) = c.toNat by omega]
    exact Char.ofNat_toNat c
  · rw [show utf8EncodeChar c.toNat =
        [0xF0 + c.toNat / 262144, 0x80 + c.toNat / 4096 % 64, 0x80 + c.toNat / 64 % 64,
         0x80 + c.toNat % 64] by
      simp [utf8EncodeChar, h1, h2, h3]]
    simp only [List.cons_append, List.nil_append]
    have hval' : c.toNat < 0x110000 := by omega
    have ha : ¬(0xF0 + c.toNat / 262144 < 0x80) := by omega
    have hb : ¬(0xF0 + c.toNat / 262144 < 0xC2 ∨ 0xF4 < 0xF0 + c.toNat / 262144) := by omega
    have hc : ¬(0xF0 + c.toNat / 262144 < 0xE0) := by omega
    have hd : ¬(0xF0 + c.toNat / 262144 < 0xF0) := by omega
    have he : (0x80 ≤ 0x80 + c.toNat / 4096 % 64 ∧ 0x80 + c.toNat / 4096 % 64 < 0xC0) ∧
        (0x80 ≤ 0x80 + c.toNat / 64 % 64 ∧ 0x80 + c.toNat / 64 % 64 < 0xC0) ∧
        (0x80 ≤ 0x80 + c.toNat % 64 ∧ 0x80 + c.toNat % 64 < 0xC0) ∧
        (0xF0 + c.toNat / 262144 = 0xF0 → 0x90 ≤ 0x80 + c.toNat / 4096 % 64) ∧
        (0xF0 + c.toNat / 262144 = 0xF4 → 0x80 + c.toNat / 4096 % 64 < 0x90) := by omega
    simp only [utf8DecodeGo, if_neg ha, if_neg hb, if_neg hc, if_neg hd, if_pos he]
    congr 1
    rw [show (0xF0 + c.toNat / 262144 - 0xF0) * 262144 +
        (0x80 + c.toNat / 4096 % 64 - 0x80) * 4096 + (0x80 + c.toNat / 64 % 64 - 0x80) * 64 +
        (0x80 + c.toNat % 64 - 0x80) = c.toNat by omega]
    exact Char.ofNat_toNat c

/-- Decoding inverts encoding, for any surplus fuel. -/
theorem utf8DecodeGo_utf8Encode (cs : List Char) :
    ∀ f, utf8DecodeGo ((utf8Encode cs).length + f) (utf8Encode cs) = cs := by
  induction cs with
  | nil => intro f; cases f <;> rfl
  | cons c rest ih =>
    intro f
    show utf8DecodeGo ((utf8EncodeChar c.toNat ++ utf8Encode rest).length + f)
      (utf8EncodeChar c.toNat ++ utf8Encode rest) = c :: rest
    have hk : 1 ≤ (utf8EncodeChar c.toNat).length := by
      unfold utf8EncodeChar
      split_ifs <;> simp
    rw [show (utf8EncodeChar c.toNat ++ utf8Encode rest).length + f =
        ((utf8Encode rest).length + ((utf8EncodeChar c.toNat).length - 1 + f)) + 1 from by
      simp only [List.length_append]
      omega]
    rw [utf8DecodeGo_enc, ih ((utf8EncodeChar c.toNat).length - 1 + f)]

/-- Decoding inverts encoding on whole strings. -/
theorem utf8_roundtrip (cs : List Char) : utf8Decode (utf8Encode cs) = cs := by
  have h := utf8DecodeGo_utf8Encode cs 0
  rw [utf8Decode]
  simpa using h

/-- Every encoded byte is a byte. -/
theorem utf8Encode_lt (cs : List Char) : ∀ b ∈ utf8Encode cs, b < 256 := by
  induction cs with
  | nil => simp [utf8Encode]
  | cons c rest ih =>
    intro b hb
    rw [show utf8Encode (c :: rest) = utf8EncodeChar c.toNat ++ utf8Encode rest from rfl] at hb
    rcases List.mem_append.mp hb with h | h
    · have hval := char_valid c
      unfold utf8EncodeChar at h
      split_ifs at h <;> simp only [List.mem_cons, List.not_mem_nil, or_false] at h <;>
        rcases h with rfl | rfl | rfl | rfl <;> omega
    · exact ih b h

/-! ## Frames produced by the encoder survive `strip` -/

theorem b64Encode_no_space (bs : List Nat) :
    ∀ c ∈ b64EncodeBytes bs, pyIsSpace c = false := by
  have hpad : pyIsSpace '=' = false := by decide
  induction bs using b64EncodeBytes.induct with
  | case1 => simp [b64EncodeBytes]
  | case2 b1 =>
    intro c hc
    simp only [b64EncodeBytes, List.mem_cons, List.not_mem_nil, or_false] at hc
    rcases hc with rfl | rfl | rfl | rfl
    · exact sextetChar_not_space _
    · exact sextetChar_not_space _
    · exact hpad
    · exact hpad
  | case3 b1 b2 =>
    intro c hc
    simp only [b64EncodeBytes, List.mem_cons, List.not_mem_nil, or_false] at hc
    rcases hc with rfl | rfl | rfl | rfl
    · exact sextetChar_not_space _
    · exact sextetChar_not_space _
    · exact sextetChar_not_space _
    · exact hpad
  | case4 b1 b2 b3 rest ih =>
    intro c hc
    simp only [b64EncodeBytes, List.mem_cons] at hc
    rcases hc with rfl | rfl | rfl | rfl | hc
    · exact sextetChar_not_space _
    · exact sextetChar_not_space _
    · exact sextetChar_not_space _
    · exact sextetChar_not_space _
    · exact ih c hc

theorem pyStrip_of_no_space (l : PyStr) (h : ∀ c ∈ l, pyIsSpace c = false) :
    pyStrip l = l := by
  have hd : ∀ (m : PyStr), (∀ c ∈ m, pyIsSpace c = false) → m.dropWhile pyIsSpace = m := by
    intro m hm
    cases m with
    | nil => rfl
    | cons a t => simp [List.dropWhile_cons, hm a (by simp)]
  rw [pyStrip, hd l h, hd l.reverse (fun c hc => h c (List.mem_reverse.mp hc)),
    List.reverse_reverse]

theorem pyStrip_b64 (bs : List Nat) : pyStrip (b64EncodeBytes bs) = b64EncodeBytes bs :=
  pyStrip_of_no_space _ (b64Encode_no_space bs)

/-! ## Splitting at the first separator -/

theorem splitEq1_first (key value : PyStr) (hkey : '=' ∉ key) :
    splitEq1 (key ++ '=' :: value) = (key, value) := by
  induction key with
  | nil => simp [splitEq1]
  | cons a t ih =>
    have ha : ¬(a = '=') := fun h => hkey (h ▸ List.mem_cons_self a t)
    have ht : '=' ∉ t := fun h => hkey (List.mem_cons_of_mem _ h)
    simp [splitEq1, ha, ih ht]

/-! ## C2 — frame round-trip -/

/-- C2 counterexample: the handler whitespace-strips both halves, so
`base64("k= v")` is reported to the store and listeners as
`("k", "v")`, not as the unmodified pair `("k", " v")`. -/
theorem C2_counterexample :
    lastOf (onText stoveInit (b64EncodeText (lit "k" ++ '=' :: lit " v")) (lit "T")) =
      some (lit "k", lit "v") ∧
    lastOf (onText stoveInit (b64EncodeText (lit "k" ++ '=' :: lit " v")) (lit "T")) ≠
      some (lit "k", lit " v") := by
  constructor
  · rfl
  · decide

/-- C2 amended: feeding `base64(utf8(key + "=" + value))` (with `'='`
not occurring in `key`) to `_on_text` splits at the first `'='` and
yields exactly `(key.strip(), value.strip())` — equal to `(key, value)`
whenever neither half carries leading/trailing whitespace — as both the
pair applied to the store and the `last` pair reported to listeners. -/
theorem C2_roundtrip_split (st : StoveState) (key value now : PyStr) (st' : StoveState)
    (hkey : '=' ∉ key)
    (hok : storeValue st (pyStrip key) (pyStrip value) now = .ok st') :
    onText st (b64EncodeText (key ++ '=' :: value)) now =
      .ok (st', some (st'.values, (pyStrip key, pyStrip value))) := by
  rw [onText, b64EncodeText, pyStrip_b64,
    b64_roundtrip (utf8Encode (key ++ '=' :: value)) (utf8Encode_lt _)]
  simp only [utf8_roundtrip]
  rw [if_pos (by simp : '=' ∈ key ++ '=' :: value)]
  simp only [splitEq1_first key value hkey, hok]

/-- C2 witness: `"k=v1=v2"` (the value itself containing `'='`) decodes
to the pair `("k", "v1=v2")`: the split is taken at the first `'='`. -/
theorem C2_roundtrip_split_witness :
    ('=' ∉ lit "k") ∧
    (∃ st', storeValue stoveInit (pyStrip (lit "k")) (pyStrip (lit "v1=v2")) (lit "T") =
        .ok st' ∧
      onText stoveInit (b64EncodeText (lit "k" ++ '=' :: lit "v1=v2")) (lit "T") =
        .ok (st', some (st'.values, (pyStrip (lit "k"), pyStrip (lit "v1=v2"))))) := by
  refine ⟨by decide,
    ⟨{ values := [(lit "_other", .ref 0), (lit "_last_updated", .prim (.str (lit "T")))],
       heap := [(0, [(lit "k", .prim (.str (lit "v1=v2")))])],
       nextAddr := 1 }, rfl, ?_⟩⟩
  exact C2_roundtrip_split stoveInit (lit "k") (lit "v1=v2") (lit "T") _ (by decide) rfl

/-! ## C5 — malformed frames are dropped without effect -/

/-- C5: a frame that is not valid base64, or whose decoded text has no
`'='`, leaves the store untouched (`_last_updated` included), notifies
no listener, and returns without raising. -/
theorem C5_malformed_dropped (st : StoveState) (frame now : PyStr)
    (hbad : b64DecodeBytes (pyStrip frame) = Option.none ∨
      ∃ bs, b64DecodeBytes (pyStrip frame) = some bs ∧ '=' ∉ utf8Decode bs) :
    onText st frame now = .ok (st, Option.none) := by
  rw [onText]
  rcases hbad with hnone | ⟨bs, hsome, hne⟩
  · rw [hnone]
  · rw [hsome]
    simp only [if_neg hne]

/-- C5 witness: `"!!"` is not base64; `base64("noequals")` decodes but
has no separator.  Neither changes the store or produces a payload. -/
theorem C5_malformed_dropped_witness :
    (b64DecodeBytes (pyStrip (lit "!!")) = Option.none ∨
      ∃ bs, b64DecodeBytes (pyStrip (lit "!!")) = some bs ∧ '=' ∉ utf8Decode bs) ∧
    onText stoveInit (lit "!!") (lit "T") = .ok (stoveInit, Option.none) ∧
    (b64DecodeBytes (pyStrip (lit "bm9lcXVhbHM=")) = Option.none ∨
      ∃ bs, b64DecodeBytes (pyStrip (lit "bm9lcXVhbHM=")) = some bs ∧
        '=' ∉ utf8Decode bs) ∧
    onText stoveInit (lit "bm9lcXVhbHM=") (lit "T") = .ok (stoveInit, Option.none) :=
  ⟨Or.inl (by decide),
   C5_malformed_dropped stoveInit (lit "!!") (lit "T") (Or.inl (by decide)),
   Or.inr ⟨utf8Encode (lit "noequals"), by decide, by decide⟩,
   C5_malformed_dropped stoveInit (lit "bm9lcXVhbHM=") (lit "T")
     (Or.inr ⟨utf8Encode (lit "noequals"), by decide, by decide⟩)⟩

/-! ## C9 — listener snapshots are only shallow copies -/

/-- C9 counterexample: the snapshot handed to the listener for the
frame `appPT[0;1]=1` shares its nested `appPT` dictionary with the live
store, so after the later frame `appPT[0;1]=2` the mapping the listener
received no longer compares equal to what it observed at notification
time (`{"0;1": [1]}` has mutated into `{"0;1": [2]}`). -/
theorem C9_counterexample :
    resolveDict
        (stateOf stoveInit
          (onText stoveInit (b64EncodeText (lit "appPT[0;1]=1")) (lit "T"))).heap
        ((snapshotOf (onText stoveInit (b64EncodeText (lit "appPT[0;1]=1")) (lit "T"))).getD
          []) ≠
      resolveDict
        (stateOf
          (stateOf stoveInit
            (onText stoveInit (b64EncodeText (lit "appPT[0;1]=1")) (lit "T")))
          (onText
            (stateOf stoveInit
              (onText stoveInit (b64EncodeText (lit "appPT[0;1]=1")) (lit "T")))
            (b64EncodeText (lit "appPT[0;1]=2")) (lit "T"))).heap
        ((snapshotOf (onText stoveInit (b64EncodeText (lit "appPT[0;1]=1")) (lit "T"))).getD
          []) := by
  decide

/-- C9 amended: the snapshot is `dict(self.values)`, a shallow copy:
its top-level entries are fixed at notification time, and every entry
holding an immediate value is immune to any later evolution of the
heap; only entries referencing a nested history/bucket dictionary are
shared with the live store and can mutate afterwards. -/
theorem C9_amended_snapshot (h h' : Heap) (snap : Dict)
    (hprim : ∀ p ∈ snap, primSlot p.2 = true) :
    resolveDict h snap = resolveDict h' snap := by
  unfold resolveDict
  apply List.map_congr_left
  intro p hp
  have hps := hprim p hp
  cases hv : p.2 with
  | prim v => rfl
  | ref a =>
    rw [hv] at hps
    simp [primSlot] at hps

/-- C9 amended witness: a snapshot of immediate values resolves the
same against any two heaps. -/
theorem C9_amended_snapshot_witness :
    (∀ p ∈ [(lit "appT", Slot.prim (.float (lit "21.5")))], primSlot p.2 = true) ∧
    resolveDict [] [(lit "appT", Slot.prim (.float (lit "21.5")))] =
      resolveDict [(0, [(lit "x", Slot.prim (.int 1))])]
        [(lit "appT", Slot.prim (.float (lit "21.5")))] :=
  ⟨by decide,
   C9_amended_snapshot [] [(0, [(lit "x", Slot.prim (.int 1))])]
     [(lit "appT", Slot.prim (.float (lit "21.5")))] (by decide)⟩

end IQ
